import Mathlib

/-!
Shallow embedding of src/AzureAPIs/function_app.py (portfolio tracking endpoint).

Numeric values (prices, share quantities) are modelled as rationals, timestamps as
natural numbers counting seconds, SQL NULL as Option, and the external yfinance
provider as an oracle function from the looked-up symbol to an optional quote
record (none models any provider failure, i.e. an exception raised during the
lookup).  The store (the Portfolio table) is a list of rows; SQL statements
become explicit list operations.
-/

set_option maxHeartbeats 1000000

/-- Uppercase ASCII letter test, modelling the regex character class of the
capital letters A to Z. -/
def isUpperAlpha (c : Char) : Bool := decide ('A' ≤ c ∧ c ≤ 'Z')

/-- Models the Python upper method (ASCII case mapping, which covers every
symbol the source handles). -/
def pyUpper (s : String) : String := ⟨s.data.map Char.toUpper⟩

/-- Strip leading and trailing whitespace from a character list. -/
def trimList (cs : List Char) : List Char :=
  ((cs.dropWhile Char.isWhitespace).reverse.dropWhile Char.isWhitespace).reverse

/-- Models the Python strip method. -/
def pyStrip (s : String) : String := ⟨trimList s.data⟩

/-- Models the Python replace of a single-character pattern by the empty string,
the only replace form the source uses. -/
def removeAll (c : Char) (s : String) : String := ⟨s.data.filter (fun x => !(x == c))⟩

/-- Does the character list start with the given pattern. -/
def startsWithL : List Char → List Char → Bool
  | [], _ => true
  | _ :: _, [] => false
  | p :: ps, c :: cs => p == c && startsWithL ps cs

/-- Does the pattern occur anywhere in the character list. -/
def containsL (pat : List Char) : List Char → Bool
  | [] => pat.isEmpty
  | c :: cs => startsWithL pat (c :: cs) || containsL pat cs

/-- Models the Python endswith test for the literal letters XX used by
the importer to spot cash-like tickers. -/
def suffixXX (s : String) : Bool :=
  match s.data.reverse with
  | 'X' :: 'X' :: _ => true
  | _ => false

/-- Models the regex search in get_exhaustive_data: three capital letters,
the literal letters XX, then any number of asterisks, anchored at the end of the
string.  A match exists exactly when, after discarding the trailing run of
asterisks, the string ends in three capital letters followed by XX; the test
works on the reversed character list, whose head is the last character. -/
def cashPattern (s : String) : Bool :=
  match s.toList.reverse.dropWhile (fun c => c == '*') with
  | 'X' :: 'X' :: c3 :: c2 :: c1 :: _ =>
    isUpperAlpha c3 && isUpperAlpha c2 && isUpperAlpha c1
  | _ => false

/-- Models the Python substring containment test (the binary in operator on
strings). -/
def containsSub (s pat : String) : Bool := containsL pat.data s.data

/-- Quote metadata returned by the external provider for one symbol: the info
fields probed by the source plus the 7-day close history (with missing closes
already replaced by 0, as the source does with fillna). -/
structure QuoteInfo where
  quoteType : Option String
  longName : Option String
  sector : Option String
  currentPrice : Option Rat
  navPrice : Option Rat
  histClose : List Rat
deriving DecidableEq

/-- The external quote provider: none models a lookup failure (an exception
raised while fetching the symbol). -/
abbrev Gateway : Type := String → Option QuoteInfo

/-- The fixed allow-list of cash-like ETF symbols in get_exhaustive_data. -/
def cash_equivalents : List String := ["BIL", "SGOV", "CLIP", "SHV", "VGSH"]

/-- The fixed growth-technology sector set in get_exhaustive_data. -/
def growth_sectors : List String := ["Technology", "Communication Services"]

/-- The symbol normalization computed in get_exhaustive_data: strip the
placeholder markers (asterisk then dollar sign), then map the brokerage spelling
BRKB to the market form BRK-B.  The source stores this value in the variable
yf_ticker but then performs the lookup with the original ticker argument. -/
def normalizeSymbol (ticker_upper : String) : String :=
  let v := removeAll '$' (removeAll '*' ticker_upper)
  if v = "BRKB" then "BRK-B" else v

/-- Result of one classification pass.  price, category and trend are the
values of the Python triple; gatewayCalls counts external lookups performed and
lookedUp records the symbol the lookup was performed with (instrumentation of
the call's observable effect on the provider). -/
structure FetchResult where
  price : Rat
  category : String
  trend : List Rat
  gatewayCalls : Nat
  lookedUp : Option String
deriving DecidableEq

/-- Model of get_exhaustive_data.  The cash pattern short-circuits before any
external access.  Otherwise the provider is consulted; a failure anywhere in the
lookup is the exception handler's degraded result.  Note that the source
computes yf_ticker but calls the provider with the original ticker argument, so
the model does the same. -/
def get_exhaustive_data (gw : Gateway) (ticker : String) : FetchResult :=
  let ticker_upper := pyUpper ticker
  if cashPattern ticker_upper then
    { price := 1, category := "Cash & Liquidity", trend := List.replicate 7 1,
      gatewayCalls := 0, lookedUp := none }
  else
    let yf_ticker := normalizeSymbol ticker_upper
    -- the source performs the lookup with ticker, not with yf_ticker
    match gw ticker with
    | none =>
      { price := 0, category := "Other", trend := [], gatewayCalls := 1,
        lookedUp := some ticker }
    | some info =>
      let trend_data := info.histClose
      let p0 : Rat := info.currentPrice.getD (info.navPrice.getD 0)
      let current_price := if p0 = 0 ∧ trend_data ≠ [] then trend_data.getLastD 0 else p0
      let category :=
        if info.quoteType = some "ETF" then
          if ticker_upper ∈ cash_equivalents then "Cash & Liquidity"
          else if containsSub (info.longName.getD "") "International" then
            "International Equity"
          else "Equity ETFs"
        else
          match info.sector with
          | some sector => if sector ∈ growth_sectors then "Growth/Tech" else sector
          | none => "Other/Miscellaneous"
      { price := current_price, category := category, trend := trend_data,
        gatewayCalls := 1, lookedUp := some ticker }

/-- One row of the Portfolio table.  Option models SQL NULL; the trend is kept
as the deserialized sequence (the source stores it JSON-serialized and the
serialization round-trips). -/
structure Row where
  ticker : String
  shares : Option Rat
  purchasePrice : Option Rat
  purchaseDate : Option String
  currentPrice : Option Rat
  category : Option String
  cachedTrend : Option (List Rat)
  lastUpdated : Option Nat
deriving DecidableEq

/-- Result of get_cached_or_live_data: the returned triple, the number of
classification passes and external gateway calls performed, and the store after
the call.  category is optional because the fresh path returns the stored
(nullable) column verbatim. -/
structure CacheResult where
  price : Rat
  category : Option String
  trend : List Rat
  fetchPasses : Nat
  gatewayCalls : Nat
  store : List Row
deriving DecidableEq

/-- Effect of the write-back UPDATE on one row: rows whose ticker matches get
the four cache columns set, every other row and column is untouched. -/
def refreshRow (now : Nat) (fr : FetchResult) (ticker : String) (r : Row) : Row :=
  if r.ticker = ticker then
    { r with lastUpdated := some now, cachedTrend := some fr.trend,
             category := some fr.category, currentPrice := some fr.price }
  else r

/-- The stale branch of get_cached_or_live_data: one classification pass, then
the write-back UPDATE of the four cache columns for the ticker. -/
def cache_refresh (gw : Gateway) (now : Nat) (ticker : String) (store : List Row) :
    Option CacheResult :=
  let fr := get_exhaustive_data gw ticker
  some { price := fr.price, category := some fr.category, trend := fr.trend,
         fetchPasses := 1, gatewayCalls := fr.gatewayCalls,
         store := store.map (refreshRow now fr ticker) }

/-- Model of get_cached_or_live_data.  now is the current time in seconds.  The
row for the ticker is the first matching one (SELECT TOP 1).  If it exists,
carries a timestamp, and is less than 21600 seconds old, the stored values are
returned with no external access; a NULL stored trend on that path is the
json.loads failure, modelled as none.  Otherwise the live data is fetched and
written back. -/
def get_cached_or_live_data (gw : Gateway) (now : Nat) (ticker : String)
    (store : List Row) : Option CacheResult :=
  match store.find? (fun r => r.ticker == ticker) with
  | some row =>
    match row.lastUpdated with
    | some tu =>
      if now - tu < 21600 then
        match row.cachedTrend with
        | some tr =>
          some { price := row.currentPrice.getD 0, category := row.category,
                 trend := tr, fetchPasses := 0, gatewayCalls := 0, store := store }
        | none => none
      else cache_refresh gw now ticker store
    | none => cache_refresh gw now ticker store
  | none => cache_refresh gw now ticker store

/-- Digit test for the decimal parser. -/
def isDigitChar (c : Char) : Bool := decide ('0' ≤ c ∧ c ≤ '9')

/-- Value of a digit string read left to right. -/
def natOfDigits (cs : List Char) : Nat := cs.foldl (fun n c => 10 * n + (c.toNat - 48)) 0

/-- Split a character list at the first decimal point: integer part and, when a
point is present, the remainder after it. -/
def splitAtDot : List Char → List Char × Option (List Char)
  | [] => ([], none)
  | '.' :: rest => ([], some rest)
  | c :: rest =>
    let p := splitAtDot rest
    (c :: p.1, p.2)

/-- Model of the Python float constructor on the plain decimal literals
the importer feeds it: optional sign, digits, optional fractional part (at least one
digit overall).  Anything else - including the placeholder strings the source
special-cases before calling float - fails, modelling the raised ValueError.
Exponent and infinity forms never occur in the brokerage export and are out of
scope. -/
def parsePyFloat (s : String) : Option Rat :=
  let parseUnsigned : List Char → Option Rat := fun cs =>
    let p := splitAtDot cs
    match p.2 with
    | none =>
      if !p.1.isEmpty && p.1.all isDigitChar then some (natOfDigits p.1) else none
    | some fp =>
      if (!p.1.isEmpty || !fp.isEmpty) && p.1.all isDigitChar && fp.all isDigitChar then
        some ((natOfDigits p.1 : Rat) + (natOfDigits fp : Rat) / ((10 : Rat) ^ fp.length))
      else none
  match trimList s.data with
  | '-' :: rest => (parseUnsigned rest).map (fun q => -q)
  | '+' :: rest => parseUnsigned rest
  | cs => parseUnsigned cs

/-- Strip the currency symbol and thousands separators and surrounding
whitespace, as the importer does before numeric parsing. -/
def stripMoney (s : String) : String := pyStrip (removeAll ',' (removeAll '$' s))

/-- One data row of the parsed CSV, as the DictReader delivers it: the five
columns the importer reads, none modelling an absent column. -/
structure CsvRow where
  symbol : Option String
  quantity : Option String
  avgCostBasis : Option String
  lastPrice : Option String
  currentValue : Option String
deriving DecidableEq

/-- The values one successfully parsed CSV row contributes to the upsert. -/
structure Vals where
  ticker : String
  shares : Rat
  purchasePrice : Rat
  currentPrice : Rat
deriving DecidableEq

/-- The share count on the cash/placeholder branch: a real value is parsed only
when the quantity is present and not the placeholder, else it is 0. -/
def cashShares (raw_qty : String) : Option Rat :=
  if raw_qty ≠ "" ∧ raw_qty ≠ "--" then parsePyFloat raw_qty else some 0

/-- The cost basis on the cash/placeholder branch: the n/a and placeholder
spellings (and the empty field) default to 0, anything else is parsed. -/
def cashCost (raw_cost : String) : Option Rat :=
  if raw_cost ≠ "" ∧ raw_cost ≠ "--" ∧ raw_cost ≠ "n/a" then parsePyFloat raw_cost
  else some 0

/-- The cost basis on the normal branch: only the placeholder spelling and the
empty field default to 0; note the source does not special-case n/a here. -/
def normCost (raw_cost : String) : Option Rat :=
  if raw_cost ≠ "" ∧ raw_cost ≠ "--" then
    parsePyFloat (removeAll ',' (removeAll '$' raw_cost))
  else some 0

/-- The last price on the normal branch. -/
def normPrice (raw_last_price : String) : Option Rat :=
  if raw_last_price ≠ "" ∧ raw_last_price ≠ "--" then parsePyFloat raw_last_price
  else some 0

/-- Per-row parsing and filtering of process_fidelity_csv: none means the row is
not upserted, either because the quality filter skipped it or because a numeric
parse failure raised and the per-row exception handler skipped it (the Option
bind sequences the parses exactly as the raising Python statements do).  The
filter checks the empty ticker, the SYMBOL header sentinel and PENDING rows;
the source has no check for the TOTAL footer row (its comment announces one). -/
def processRow (row : CsvRow) : Option Vals :=
  let ticker := pyUpper (pyStrip (row.symbol.getD ""))
  if ticker = "" ∨ ticker = "SYMBOL" ∨ containsSub ticker "PENDING" then none
  else
    let raw_qty := pyStrip (row.quantity.getD "")
    let raw_cost := stripMoney (row.avgCostBasis.getD "0")
    let raw_last_price := stripMoney (row.lastPrice.getD "0")
    if raw_qty = "" ∨ raw_qty = "--" ∨ suffixXX ticker then
      (cashShares raw_qty).bind fun s =>
        (cashCost raw_cost).map fun p =>
          { ticker := ticker, shares := s, purchasePrice := p, currentPrice := 1 }
    else
      (parsePyFloat (removeAll ',' raw_qty)).bind fun s =>
        (normCost raw_cost).bind fun p =>
          (normPrice raw_last_price).map fun c =>
            { ticker := ticker, shares := s, purchasePrice := p, currentPrice := c }

/-- Effect of the importer's UPDATE statement on a matching row: shares, cost
basis and current price are replaced and LastUpdated cleared; the other columns
keep their values. -/
def setVals (v : Vals) (r : Row) : Row :=
  { r with shares := some v.shares, purchasePrice := some v.purchasePrice,
           currentPrice := some v.currentPrice, lastUpdated := none }

/-- The row the importer's INSERT statement creates: only the five listed
columns receive values, the rest are NULL. -/
def mkRow (v : Vals) : Row :=
  { ticker := v.ticker, shares := some v.shares, purchasePrice := some v.purchasePrice,
    purchaseDate := none, currentPrice := some v.currentPrice, category := none,
    cachedTrend := none, lastUpdated := none }

/-- The importer's existence probe (SELECT of the ticker with fetchone). -/
def hasTicker (store : List Row) (t : String) : Bool := store.any (fun r => r.ticker = t)

/-- The importer's upsert: UPDATE every row of the ticker when one exists, else
INSERT a fresh row. -/
def upsert (store : List Row) (v : Vals) : List Row :=
  if hasTicker store v.ticker then
    store.map (fun r => if r.ticker = v.ticker then setVals v r else r)
  else store ++ [mkRow v]

/-- Model of process_fidelity_csv: fold the parsed data rows over the store,
counting the rows that reach the upsert. -/
def process_fidelity_csv (rows : List CsvRow) (store : List Row) : List Row × Nat :=
  rows.foldl
    (fun acc row =>
      match processRow row with
      | none => acc
      | some v => (upsert acc.1 v, acc.2 + 1))
    (store, 0)

/-- Body of the POST add request; none models an absent (or null) field. -/
structure PostBody where
  ticker : Option String
  shares : Option Rat
  purchase_price : Option Rat
  purchase_date : Option String
deriving DecidableEq

/-- Model of the POST add branch of get_assets.  The result is the HTTP status
and the store afterwards; none models an exception escaping the branch (the
outer handler turns it into a 500).  The source calls upper() on the ticker
field before any presence check, so an absent ticker raises.  On success the
INSERT is unconditional - no existence probe - and writes no CurrentPrice
column. -/
def post_add (gw : Gateway) (now : Nat) (body : PostBody) (store : List Row) :
    Option (Nat × List Row) :=
  match body.ticker with
  | none => none
  | some t0 =>
    let ticker := pyUpper t0
    let shares := body.shares.getD 0
    let purchase_price := body.purchase_price.getD 0
    if ticker = "" ∨ shares ≤ 0 then some (400, store)
    else
      let fr := get_exhaustive_data gw ticker
      some (201, store ++
        [{ ticker := ticker, shares := some shares, purchasePrice := some purchase_price,
           purchaseDate := body.purchase_date, currentPrice := none,
           category := some fr.category, cachedTrend := some fr.trend,
           lastUpdated := some now }])

/-- The POST add branch together with the surrounding exception handler of
get_assets, which answers 500 on any uncaught error and leaves the store
untouched (the failing branch raised before executing any statement). -/
def post_add_status (gw : Gateway) (now : Nat) (body : PostBody) (store : List Row) :
    Nat × List Row :=
  match post_add gw now body store with
  | some r => r
  | none => (500, store)

/-! ### Supporting lemmas for the gateway, classifier and cache claims -/

lemma dropWhile_replicate_append (p : Char → Bool) (x : Char) (k : Nat) (l : List Char)
    (hx : p x = true) :
    (List.replicate k x ++ l).dropWhile p = l.dropWhile p := by
  induction k with
  | zero => simp
  | succ n ih => simp [List.replicate_succ, List.dropWhile_cons, hx, ih]

/-- A string that ends in three capital letters, the letters XX, and a trailing
run of asterisks matches the cash regex. -/
lemma cashPattern_of_shape (s : String) (pre : List Char) (a b c : Char) (k : Nat)
    (hs : s.toList = pre ++ [a, b, c, 'X', 'X'] ++ List.replicate k '*')
    (ha : isUpperAlpha a = true) (hb : isUpperAlpha b = true)
    (hc : isUpperAlpha c = true) :
    cashPattern s = true := by
  unfold cashPattern
  rw [hs]
  simp only [List.reverse_append, List.reverse_replicate, List.reverse_cons,
    List.reverse_nil, List.nil_append, List.cons_append, List.append_assoc]
  rw [dropWhile_replicate_append _ _ _ _ (by decide)]
  rw [List.dropWhile_cons_of_neg (by decide)]
  simp [ha, hb, hc]

/-- On a stale row (no timestamp, or one at least 21600 seconds old) the cache
read takes the refresh branch. -/
lemma get_cached_stale (gw : Gateway) (now : Nat) (ticker : String) (store : List Row)
    (r : Row) (hfind : store.find? (fun x => x.ticker == ticker) = some r)
    (hstale : r.lastUpdated = none ∨ ∃ tu, r.lastUpdated = some tu ∧ tu + 21600 ≤ now) :
    get_cached_or_live_data gw now ticker store = cache_refresh gw now ticker store := by
  unfold get_cached_or_live_data
  simp only [hfind]
  rcases hstale with h | ⟨tu, htu, hle⟩
  · simp only [h]
  · simp only [htu]
    rw [if_neg (by omega)]

lemma refreshRow_shares (now : Nat) (fr : FetchResult) (ticker : String) (x : Row) :
    (refreshRow now fr ticker x).shares = x.shares := by
  unfold refreshRow; split <;> rfl

lemma refreshRow_purchasePrice (now : Nat) (fr : FetchResult) (ticker : String) (x : Row) :
    (refreshRow now fr ticker x).purchasePrice = x.purchasePrice := by
  unfold refreshRow; split <;> rfl

lemma refreshRow_purchaseDate (now : Nat) (fr : FetchResult) (ticker : String) (x : Row) :
    (refreshRow now fr ticker x).purchaseDate = x.purchaseDate := by
  unfold refreshRow; split <;> rfl

lemma refreshRow_ticker (now : Nat) (fr : FetchResult) (ticker : String) (x : Row) :
    (refreshRow now fr ticker x).ticker = x.ticker := by
  unfold refreshRow; split <;> rfl

lemma refreshRow_of_eq (now : Nat) (fr : FetchResult) (ticker : String) (x : Row)
    (h : x.ticker = ticker) :
    refreshRow now fr ticker x =
      { x with lastUpdated := some now, cachedTrend := some fr.trend,
               category := some fr.category, currentPrice := some fr.price } := by
  simp [refreshRow, h]

lemma refreshRow_of_ne (now : Nat) (fr : FetchResult) (ticker : String) (x : Row)
    (h : x.ticker ≠ ticker) : refreshRow now fr ticker x = x := by
  simp [refreshRow, h]

/-- When the cash pattern does not match, the classification consults the
provider with the original (unnormalized) ticker. -/
lemma get_exhaustive_lookedUp (gw : Gateway) (ticker : String)
    (h : cashPattern (pyUpper ticker) = false) :
    (get_exhaustive_data gw ticker).lookedUp = some ticker := by
  simp only [get_exhaustive_data, h, Bool.false_eq_true, if_false]
  cases hgw : gw ticker <;> simp [hgw]

/-- When the cash pattern does not match and the provider fails, classification
yields the degraded defaults. -/
lemma get_exhaustive_failure (gw : Gateway) (ticker : String)
    (hcash : cashPattern (pyUpper ticker) = false) (hgw : gw ticker = none) :
    get_exhaustive_data gw ticker =
      { price := 0, category := "Other", trend := [], gatewayCalls := 1,
        lookedUp := some ticker } := by
  simp only [get_exhaustive_data, hcash, Bool.false_eq_true, if_false, hgw]

/-! ### Witness fixtures -/

/-- A gateway on which every lookup fails. -/
def gwNone : Gateway := fun _ => none

/-- A quote a live gateway could plausibly return. -/
def quoteETF : QuoteInfo :=
  { quoteType := some "ETF", longName := some "Some International Fund", sector := none,
    currentPrice := some 55, navPrice := none, histClose := [50, 51] }

/-- A gateway on which every lookup succeeds with an ETF quote. -/
def gwETF : Gateway := fun _ => some quoteETF

/-- A cached row that is fresh at time 1000. -/
def rowFresh : Row :=
  { ticker := "AAPL", shares := some 10, purchasePrice := some 100, purchaseDate := none,
    currentPrice := some 222, category := some "Growth/Tech", cachedTrend := some [1, 2],
    lastUpdated := some 900 }

/-- A cached row that was never refreshed. -/
def rowStale : Row :=
  { ticker := "AAPL", shares := some 10, purchasePrice := some 100,
    purchaseDate := some "2024-01-01", currentPrice := none, category := none,
    cachedTrend := none, lastUpdated := none }

/-! ### Claims C1 to C4 and C9 -/

/-- Claim C1: for a ticker whose stored row has a non-null LastUpdated less
than 21600 seconds before now, get_cached_or_live_data performs zero
classification passes and zero external gateway calls and returns the stored
current price, stored category and deserialized cached trend unchanged, with
the store untouched. -/
theorem claim_C1_fresh_cache_read (gw : Gateway) (now : Nat) (ticker : String)
    (store : List Row) (r : Row) (tu : Nat) (p : Rat) (tr : List Rat)
    (hfind : store.find? (fun x => x.ticker == ticker) = some r)
    (htu : r.lastUpdated = some tu) (hle : tu ≤ now) (hfresh : now - tu < 21600)
    (hp : r.currentPrice = some p) (htr : r.cachedTrend = some tr) :
    get_cached_or_live_data gw now ticker store =
      some { price := p, category := r.category, trend := tr, fetchPasses := 0,
             gatewayCalls := 0, store := store } := by
  unfold get_cached_or_live_data
  simp only [hfind, htu, if_pos hfresh, htr, hp, Option.getD_some]

/-- Witness for claim C1 at a concrete fresh row. -/
theorem claim_C1_witness :
    ([rowFresh].find? (fun x => x.ticker == "AAPL") = some rowFresh
      ∧ rowFresh.lastUpdated = some 900 ∧ 900 ≤ 1000 ∧ 1000 - 900 < 21600
      ∧ rowFresh.currentPrice = some 222 ∧ rowFresh.cachedTrend = some [1, 2])
    ∧ get_cached_or_live_data gwNone 1000 "AAPL" [rowFresh] =
        some { price := 222, category := rowFresh.category, trend := [1, 2],
               fetchPasses := 0, gatewayCalls := 0, store := [rowFresh] } :=
  ⟨by decide,
   claim_C1_fresh_cache_read gwNone 1000 "AAPL" [rowFresh] rowFresh 900 222 [1, 2]
     (by decide) (by decide) (by decide) (by decide) (by decide) (by decide)⟩

/-- Claim C2: for a ticker whose stored row has a null LastUpdated or one at
least 21600 seconds old, get_cached_or_live_data performs exactly one
gateway/classifier pass, and the write-back sets only the four cache columns
(current price, category, trend, LastUpdated = now) on the rows of that ticker,
leaving shares, purchase price and purchase date of every row unchanged and
rows of other tickers entirely unchanged. -/
theorem claim_C2_stale_refresh_frame (gw : Gateway) (now : Nat) (ticker : String)
    (store : List Row) (r : Row)
    (hfind : store.find? (fun x => x.ticker == ticker) = some r)
    (hstale : r.lastUpdated = none ∨ ∃ tu, r.lastUpdated = some tu ∧ tu + 21600 ≤ now) :
    get_cached_or_live_data gw now ticker store =
      some { price := (get_exhaustive_data gw ticker).price,
             category := some (get_exhaustive_data gw ticker).category,
             trend := (get_exhaustive_data gw ticker).trend,
             fetchPasses := 1,
             gatewayCalls := (get_exhaustive_data gw ticker).gatewayCalls,
             store := store.map (refreshRow now (get_exhaustive_data gw ticker) ticker) }
    ∧ (∀ x : Row,
        (refreshRow now (get_exhaustive_data gw ticker) ticker x).shares = x.shares ∧
        (refreshRow now (get_exhaustive_data gw ticker) ticker x).purchasePrice
          = x.purchasePrice ∧
        (refreshRow now (get_exhaustive_data gw ticker) ticker x).purchaseDate
          = x.purchaseDate ∧
        (refreshRow now (get_exhaustive_data gw ticker) ticker x).ticker = x.ticker)
    ∧ (∀ x : Row, x.ticker = ticker →
        refreshRow now (get_exhaustive_data gw ticker) ticker x =
          { x with lastUpdated := some now,
                   cachedTrend := some (get_exhaustive_data gw ticker).trend,
                   category := some (get_exhaustive_data gw ticker).category,
                   currentPrice := some (get_exhaustive_data gw ticker).price })
    ∧ (∀ x : Row, x.ticker ≠ ticker →
        refreshRow now (get_exhaustive_data gw ticker) ticker x = x) := by
  refine ⟨?_,
    fun x => ⟨refreshRow_shares _ _ _ _, refreshRow_purchasePrice _ _ _ _,
      refreshRow_purchaseDate _ _ _ _, refreshRow_ticker _ _ _ _⟩,
    fun x hx => refreshRow_of_eq _ _ _ _ hx,
    fun x hx => refreshRow_of_ne _ _ _ _ hx⟩
  rw [get_cached_stale gw now ticker store r hfind hstale]
  rfl

/-- Witness for claim C2 at a concrete never-refreshed row. -/
theorem claim_C2_witness :
    ([rowStale].find? (fun x => x.ticker == "AAPL") = some rowStale
      ∧ rowStale.lastUpdated = none)
    ∧ get_cached_or_live_data gwNone 7 "AAPL" [rowStale] =
        some { price := (get_exhaustive_data gwNone "AAPL").price,
               category := some (get_exhaustive_data gwNone "AAPL").category,
               trend := (get_exhaustive_data gwNone "AAPL").trend,
               fetchPasses := 1,
               gatewayCalls := (get_exhaustive_data gwNone "AAPL").gatewayCalls,
               store := [rowStale].map (refreshRow 7 (get_exhaustive_data gwNone "AAPL")
                 "AAPL") } :=
  ⟨⟨by decide, by decide⟩,
   (claim_C2_stale_refresh_frame gwNone 7 "AAPL" [rowStale] rowStale (by decide)
     (Or.inl (by decide))).1⟩

/-- Claim C3: a ticker matching the cash pattern (three letters, then the
letters XX, then optional trailing asterisk placeholders) classifies to price 1,
category Cash and Liquidity, and a trend of exactly seven ones, with no external
lookup performed, for every possible gateway. -/
theorem claim_C3_cash_ticker (gw : Gateway) (s : String) (pre : List Char)
    (a b c : Char) (k : Nat)
    (hs : (pyUpper s).toList = pre ++ [a, b, c, 'X', 'X'] ++ List.replicate k '*')
    (ha : isUpperAlpha a = true) (hb : isUpperAlpha b = true)
    (hc : isUpperAlpha c = true) :
    get_exhaustive_data gw s =
      { price := 1, category := "Cash & Liquidity", trend := List.replicate 7 1,
        gatewayCalls := 0, lookedUp := none } := by
  have hcp : cashPattern (pyUpper s) = true := cashPattern_of_shape _ pre a b c k hs ha hb hc
  simp only [get_exhaustive_data, hcp, if_true]

/-- Witness for claim C3: a money-market symbol with placeholder markers, on a
gateway that would answer with a live ETF quote. -/
theorem claim_C3_witness :
    ((pyUpper "Fdrxx**").toList = [] ++ ['F', 'D', 'R', 'X', 'X'] ++ List.replicate 2 '*'
      ∧ isUpperAlpha 'F' = true ∧ isUpperAlpha 'D' = true ∧ isUpperAlpha 'R' = true)
    ∧ get_exhaustive_data gwETF "Fdrxx**" =
        { price := 1, category := "Cash & Liquidity", trend := List.replicate 7 1,
          gatewayCalls := 0, lookedUp := none } :=
  ⟨by decide,
   claim_C3_cash_ticker gwETF "Fdrxx**" [] 'F' 'D' 'R' 2 (by decide) (by decide)
     (by decide) (by decide)⟩

/-- Claim C4: when the external lookup for a non-cash ticker fails, the
classification returns the degraded triple (price 0, category Other, empty
trend) as an ordinary value, and a stale-read refresh persists exactly those
defaults together with LastUpdated = now instead of leaving the row stale. -/
theorem claim_C4_failure_defaults (gw : Gateway) (now : Nat) (ticker : String)
    (store : List Row) (r : Row)
    (hgw : gw ticker = none) (hcash : cashPattern (pyUpper ticker) = false)
    (hfind : store.find? (fun x => x.ticker == ticker) = some r)
    (hstale : r.lastUpdated = none ∨ ∃ tu, r.lastUpdated = some tu ∧ tu + 21600 ≤ now) :
    get_exhaustive_data gw ticker =
      { price := 0, category := "Other", trend := [], gatewayCalls := 1,
        lookedUp := some ticker }
    ∧ get_cached_or_live_data gw now ticker store =
        some { price := 0, category := some "Other", trend := [], fetchPasses := 1,
               gatewayCalls := 1,
               store := store.map (refreshRow now
                 { price := 0, category := "Other", trend := [], gatewayCalls := 1,
                   lookedUp := some ticker } ticker) }
    ∧ (∀ x : Row, x.ticker = ticker →
        refreshRow now
            { price := 0, category := "Other", trend := [], gatewayCalls := 1,
              lookedUp := some ticker } ticker x =
          { x with lastUpdated := some now, cachedTrend := some [],
                   category := some "Other", currentPrice := some 0 }) := by
  have h1 := get_exhaustive_failure gw ticker hcash hgw
  refine ⟨h1, ?_, fun x hx => by rw [refreshRow_of_eq _ _ _ _ hx]⟩
  rw [get_cached_stale gw now ticker store r hfind hstale]
  simp only [cache_refresh, h1]

/-- Witness for claim C4 at a concrete failing lookup over a stale row. -/
theorem claim_C4_witness :
    (gwNone "AAPL" = none ∧ cashPattern (pyUpper "AAPL") = false
      ∧ [rowStale].find? (fun x => x.ticker == "AAPL") = some rowStale
      ∧ rowStale.lastUpdated = none)
    ∧ get_cached_or_live_data gwNone 7 "AAPL" [rowStale] =
        some { price := 0, category := some "Other", trend := [], fetchPasses := 1,
               gatewayCalls := 1,
               store := [rowStale].map (refreshRow 7
                 { price := 0, category := "Other", trend := [], gatewayCalls := 1,
                   lookedUp := some "AAPL" } "AAPL") } :=
  ⟨by decide,
   (claim_C4_failure_defaults gwNone 7 "AAPL" [rowStale] rowStale rfl (by decide)
     (by decide) (Or.inl (by decide))).2.1⟩

/-- Claim C9: the source computes the normalized symbol (placeholder markers
stripped, BRKB mapped to BRK-B) but performs the external lookup with the
original symbol, so for the brokerage spelling BRKB the lookup uses BRKB, not
the market form BRK-B the normalization produces. -/
theorem claim_C9_lookup_uses_raw_symbol (gw : Gateway) :
    normalizeSymbol (pyUpper "BRKB") = "BRK-B"
    ∧ (get_exhaustive_data gw "BRKB").lookedUp = some "BRKB"
    ∧ ("BRKB" : String) ≠ "BRK-B" :=
  ⟨by decide, get_exhaustive_lookedUp gw "BRKB" (by decide), by decide⟩

/-! ### Claims C5, C6, C8, C10 -/

/-- A valid equity row of the sample import file. -/
def aaplCsv : CsvRow :=
  { symbol := some "AAPL", quantity := some "10", avgCostBasis := some "$150.00",
    lastPrice := some "$200.00", currentValue := some "$2,000.00" }

/-- A blank row of the sample import file. -/
def blankCsv : CsvRow :=
  { symbol := some "", quantity := some "", avgCostBasis := some "",
    lastPrice := some "", currentValue := some "" }

/-- The TOTAL footer row of the sample import file. -/
def totalCsv : CsvRow :=
  { symbol := some "Total", quantity := some "", avgCostBasis := some "",
    lastPrice := some "", currentValue := some "$5,000.00" }

/-- A second valid equity row of the sample import file. -/
def msftCsv : CsvRow :=
  { symbol := some "MSFT", quantity := some "5", avgCostBasis := some "100",
    lastPrice := some "300", currentValue := some "1500" }

/-- A third valid equity row of the sample import file. -/
def nvdaCsv : CsvRow :=
  { symbol := some "NVDA", quantity := some "2", avgCostBasis := some "400",
    lastPrice := some "500", currentValue := some "1000" }

/-- A five-row import file with exactly two non-position rows: a blank row and
the TOTAL footer. -/
def csvFive : List CsvRow := [aaplCsv, blankCsv, totalCsv, msftCsv, nvdaCsv]

/-- Claim C5 assessment: the importer's filter has no check for the TOTAL
footer row (although the adjacent source comment announces one), so a TOTAL row
is parsed on the placeholder branch and upserted: on the five-row file with two
non-position rows the processed count is 4, not the 3 the claim requires, and
the store acquires a row with ticker TOTAL. -/
theorem claim_C5_total_row_not_skipped :
    (process_fidelity_csv csvFive []).2 = 4
    ∧ hasTicker (process_fidelity_csv csvFive []).1 "TOTAL" = true
    ∧ processRow totalCsv =
        some { ticker := "TOTAL", shares := 0, purchasePrice := 0, currentPrice := 1 }
    ∧ processRow blankCsv = none := by
  with_unfolding_all decide

/-- A normal (non-cash) row whose cost-basis field is the spelling n/a. -/
def naCsv : CsvRow :=
  { symbol := some "IBM", quantity := some "10", avgCostBasis := some "n/a",
    lastPrice := some "120.00", currentValue := none }

/-- Counterexample to claim C6 as stated: a normal row (quantity present, not a
cash ticker) with cost-basis n/a is not upserted with a zero purchase price -
the parse failure raises, the per-row handler skips the whole row, and
the import of that single row returns an unchanged store and count 0. -/
theorem claim_C6_counterexample :
    stripMoney (naCsv.avgCostBasis.getD "0") = "n/a"
    ∧ processRow naCsv = none
    ∧ process_fidelity_csv [naCsv] [] = ([], 0) := by
  with_unfolding_all decide

/-- Claim C6 amended: whenever a row whose cleaned cost-basis field reads n/a
or the placeholder is upserted at all, its purchase price is 0 (the cash
branch defaults both spellings, the normal branch defaults the placeholder);
a normal-branch row with n/a is instead skipped by the per-row handler without
raising to the caller, as the counterexample shows. -/
theorem claim_C6_amended_cost_defaults_zero (row : CsvRow) (v : Vals)
    (hrun : processRow row = some v)
    (hcost : stripMoney (row.avgCostBasis.getD "0") = "n/a"
      ∨ stripMoney (row.avgCostBasis.getD "0") = "--") :
    v.purchasePrice = 0 := by
  simp only [processRow] at hrun
  split at hrun
  · exact Option.noConfusion hrun
  · split at hrun
    · have hcc : cashCost (stripMoney (row.avgCostBasis.getD "0")) = some 0 := by
        rcases hcost with h | h <;> rw [h] <;> decide
      rw [hcc] at hrun
      rw [Option.bind_eq_some] at hrun
      obtain ⟨s, hs, hv⟩ := hrun
      simp only [Option.map_some'] at hv
      cases hv
      rfl
    · rcases hcost with h | h
      · have hnc : normCost (stripMoney (row.avgCostBasis.getD "0")) = none := by
          rw [h]; decide
        rw [hnc] at hrun
        simp at hrun
      · have hnc : normCost (stripMoney (row.avgCostBasis.getD "0")) = some 0 := by
          rw [h]; decide
        rw [hnc] at hrun
        simp only [Option.bind_eq_some, Option.map_eq_some'] at hrun
        obtain ⟨s, hs, c, hc, a, ha, hv⟩ := hrun
        injection hc with hc0
        subst hc0
        cases hv
        rfl

/-- A cash row (money-market ticker, blank quantity) with cost-basis n/a. -/
def spaxxNaCsv : CsvRow :=
  { symbol := some "SPAXX", quantity := some "", avgCostBasis := some "n/a",
    lastPrice := none, currentValue := none }

/-- Witness for the amended claim C6: the cash-branch n/a row is upserted and
its purchase price is 0. -/
theorem claim_C6_witness :
    (processRow spaxxNaCsv =
        some { ticker := "SPAXX", shares := 0, purchasePrice := 0, currentPrice := 1 }
      ∧ (stripMoney (spaxxNaCsv.avgCostBasis.getD "0") = "n/a"
        ∨ stripMoney (spaxxNaCsv.avgCostBasis.getD "0") = "--"))
    ∧ ({ ticker := "SPAXX", shares := 0, purchasePrice := 0, currentPrice := 1 }
        : Vals).purchasePrice = 0 :=
  ⟨⟨by with_unfolding_all decide, Or.inl (by decide)⟩,
   claim_C6_amended_cost_defaults_zero spaxxNaCsv _ (by with_unfolding_all decide)
     (Or.inl (by decide))⟩

/-- Claim C8 assessment: a POST add whose body is missing the ticker field does
not receive the 400 validation answer: the handler applies upper() to the
absent value before any check, raises, and the outer handler answers 500 - the
store is untouched either way.  A present ticker with shares 0 (or negative,
since the parsed value is then at most 0) does receive 400 with no insert. -/
theorem claim_C8_missing_ticker_gives_500 (gw : Gateway) (now : Nat)
    (sh pp : Option Rat) (pd : Option String) (store : List Row) :
    post_add_status gw now
        { ticker := none, shares := sh, purchase_price := pp, purchase_date := pd }
        store = (500, store)
    ∧ (∀ t0 : String, ∀ sh0 : Rat, sh0 ≤ 0 →
        post_add_status gw now
          { ticker := some t0, shares := some sh0, purchase_price := pp,
            purchase_date := pd } store = (400, store)) := by
  constructor
  · rfl
  · intro t0 sh0 hsh
    unfold post_add_status post_add
    simp only [Option.getD_some]
    rw [if_pos (Or.inr hsh)]

/-- Witness for claim C8: the concrete missing-ticker body answers 500, the
concrete zero-shares body answers 400, neither touches the store. -/
theorem claim_C8_witness :
    post_add_status gwNone 7
        { ticker := none, shares := some 5, purchase_price := none,
          purchase_date := none } [] = (500, [])
    ∧ ((0 : Rat) ≤ 0
      ∧ post_add_status gwNone 7
          { ticker := some "aapl", shares := some 0, purchase_price := none,
            purchase_date := none } [] = (400, [])) :=
  ⟨(claim_C8_missing_ticker_gives_500 gwNone 7 (some 5) none none []).1,
   le_refl 0,
   (claim_C8_missing_ticker_gives_500 gwNone 7 (some 0) none none []).2 "aapl" 0
     (le_refl 0)⟩

/-- The row the POST add branch inserts. -/
def postRow (gw : Gateway) (now : Nat) (body : PostBody) (ticker : String) : Row :=
  { ticker := ticker, shares := some (body.shares.getD 0),
    purchasePrice := some (body.purchase_price.getD 0),
    purchaseDate := body.purchase_date, currentPrice := none,
    category := some (get_exhaustive_data gw ticker).category,
    cachedTrend := some (get_exhaustive_data gw ticker).trend,
    lastUpdated := some now }

/-- Claim C10: the POST add path performs an unconditional insert with no
existence probe: every validated request appends a fresh row, leaving every
existing row unchanged, so when a row with the same ticker already exists the
ticker's row count grows beyond one instead of being updated. -/
theorem claim_C10_post_inserts_unconditionally (gw : Gateway) (now : Nat)
    (body : PostBody) (store : List Row) (t0 : String)
    (ht : body.ticker = some t0) (hne : pyUpper t0 ≠ "")
    (hsh : 0 < body.shares.getD 0) :
    post_add gw now body store =
      some (201, store ++ [postRow gw now body (pyUpper t0)])
    ∧ (store ++ [postRow gw now body (pyUpper t0)]).countP
        (fun r => r.ticker == pyUpper t0)
      = store.countP (fun r => r.ticker == pyUpper t0) + 1 := by
  constructor
  · simp only [post_add, ht]
    rw [if_neg (by push_neg; exact ⟨hne, hsh⟩)]
    rfl
  · rw [List.countP_append]
    simp [postRow, List.countP_cons]

/-- Witness for claim C10: adding a ticker that is already stored appends a
second row for it. -/
theorem claim_C10_witness :
    (({ ticker := some "aapl", shares := some 5, purchase_price := some 150,
        purchase_date := none } : PostBody).ticker = some "aapl"
      ∧ pyUpper "aapl" ≠ ""
      ∧ 0 < (({ ticker := some "aapl", shares := some 5,
                purchase_price := some 150,
                purchase_date := none } : PostBody).shares.getD 0))
    ∧ (post_add gwNone 7
          { ticker := some "aapl", shares := some 5, purchase_price := some 150,
            purchase_date := none } [rowFresh] =
        some (201, [rowFresh] ++ [postRow gwNone 7
          { ticker := some "aapl", shares := some 5, purchase_price := some 150,
            purchase_date := none } (pyUpper "aapl")])
      ∧ ([rowFresh] ++ [postRow gwNone 7
            { ticker := some "aapl", shares := some 5, purchase_price := some 150,
              purchase_date := none } (pyUpper "aapl")]).countP
          (fun r => r.ticker == pyUpper "aapl")
        = [rowFresh].countP (fun r => r.ticker == pyUpper "aapl") + 1) :=
  ⟨⟨rfl, by decide, by with_unfolding_all decide⟩,
   claim_C10_post_inserts_unconditionally gwNone 7
     { ticker := some "aapl", shares := some 5, purchase_price := some 150,
       purchase_date := none } [rowFresh] "aapl" rfl (by decide)
     (by with_unfolding_all decide)⟩

/-! ### Supporting development for the import idempotence claim

The import fold is characterized by a normal form: every stored row receives
the last values its ticker gets in the parsed file, and the tickers the store
lacks are appended once each, in first-occurrence order, with their final
values. -/

/-- The stored tickers, in row order. -/
def tickers (store : List Row) : List String := store.map Row.ticker

/-- The last parsed values a parsed-row list carries for a ticker. -/
def lastFor : List Vals → String → Option Vals
  | [], _ => none
  | v :: pvs, t =>
    match lastFor pvs t with
    | some w => some w
    | none => if v.ticker = t then some v else none

/-- Overwrite a row with the last values its ticker gets in the list, if any. -/
def applyLast (pvs : List Vals) (r : Row) : Row :=
  match lastFor pvs r.ticker with
  | some v => setVals v r
  | none => r

/-- The rows the import appends for tickers outside ts: one per first
occurrence, carrying the final values of that ticker. -/
def freshRows : List String → List Vals → List Row
  | _, [] => []
  | ts, v :: pvs =>
    if v.ticker ∈ ts then freshRows ts pvs
    else mkRow ((lastFor pvs v.ticker).getD v) :: freshRows (v.ticker :: ts) pvs

/-- Fold the upserts of a parsed-row list over the store. -/
def applyAll : List Row → List Vals → List Row
  | store, [] => store
  | store, v :: pvs => applyAll (upsert store v) pvs

lemma list_map_congr {α β : Type _} {f g : α → β} :
    ∀ (l : List α), (∀ a ∈ l, f a = g a) → l.map f = l.map g
  | [], _ => rfl
  | a :: l, h => by
    simp only [List.map_cons]
    rw [h a (List.mem_cons_self a l),
      list_map_congr l (fun x hx => h x (List.mem_cons_of_mem a hx))]

lemma setVals_ticker (v : Vals) (r : Row) : (setVals v r).ticker = r.ticker := rfl

lemma setVals_setVals (v w : Vals) (r : Row) : setVals w (setVals v r) = setVals w r := rfl

lemma mkRow_ticker (v : Vals) : (mkRow v).ticker = v.ticker := rfl

lemma setVals_mkRow (v w : Vals) (h : w.ticker = v.ticker) :
    setVals w (mkRow v) = mkRow w := by
  simp [setVals, mkRow, h]

lemma lastFor_ticker (t : String) (w : Vals) :
    ∀ (pvs : List Vals), lastFor pvs t = some w → w.ticker = t := by
  intro pvs
  induction pvs with
  | nil => intro h; simp [lastFor] at h
  | cons v pvs ih =>
    intro h
    unfold lastFor at h
    cases hl : lastFor pvs t with
    | some u => rw [hl] at h; cases h; exact ih hl
    | none =>
      rw [hl] at h
      by_cases hv : v.ticker = t
      · rw [if_pos hv] at h; cases h; exact hv
      · rw [if_neg hv] at h; cases h

lemma lastFor_cons (v : Vals) (pvs : List Vals) (t : String) :
    lastFor (v :: pvs) t =
      match lastFor pvs t with
      | some w => some w
      | none => if v.ticker = t then some v else none := rfl

lemma lastFor_cons_ne (v : Vals) (pvs : List Vals) (t : String) (h : v.ticker ≠ t) :
    lastFor (v :: pvs) t = lastFor pvs t := by
  rw [lastFor_cons]
  cases hl : lastFor pvs t with
  | some u => rfl
  | none => rw [if_neg h]

lemma lastFor_cons_eq (v : Vals) (pvs : List Vals) (t : String) (h : v.ticker = t) :
    lastFor (v :: pvs) t = some ((lastFor pvs t).getD v) := by
  rw [lastFor_cons]
  cases hl : lastFor pvs t with
  | some u => rfl
  | none => rw [if_pos h]; rfl

/-- The row value emitted for a first occurrence carries that ticker. -/
lemma lastForD_ticker (pvs : List Vals) (v : Vals) :
    ((lastFor pvs v.ticker).getD v).ticker = v.ticker := by
  cases hl : lastFor pvs v.ticker with
  | some w => exact lastFor_ticker v.ticker w pvs hl
  | none => rfl

lemma applyLast_nil (r : Row) : applyLast [] r = r := rfl

lemma applyLast_ticker (pvs : List Vals) (r : Row) :
    (applyLast pvs r).ticker = r.ticker := by
  unfold applyLast
  cases lastFor pvs r.ticker <;> rfl

lemma applyLast_idem (pvs : List Vals) (r : Row) :
    applyLast pvs (applyLast pvs r) = applyLast pvs r := by
  cases hl : lastFor pvs r.ticker with
  | none =>
    have h1 : applyLast pvs r = r := by unfold applyLast; rw [hl]
    rw [h1]
    exact h1
  | some v =>
    have h1 : applyLast pvs r = setVals v r := by unfold applyLast; rw [hl]
    rw [h1]
    unfold applyLast
    rw [setVals_ticker, hl]
    exact setVals_setVals v v r

lemma applyLast_cons_ne (v : Vals) (pvs : List Vals) (r : Row)
    (h : r.ticker ≠ v.ticker) : applyLast (v :: pvs) r = applyLast pvs r := by
  unfold applyLast
  rw [lastFor_cons_ne v pvs r.ticker (fun hh => h hh.symm)]

/-- One import step followed by the last-value overwrite of the remaining rows
equals the last-value overwrite of the whole list. -/
lemma applyLast_step (v : Vals) (pvs : List Vals) (r : Row) :
    applyLast pvs (if r.ticker = v.ticker then setVals v r else r)
      = applyLast (v :: pvs) r := by
  by_cases h : r.ticker = v.ticker
  · rw [if_pos h]
    unfold applyLast
    rw [setVals_ticker, h, lastFor_cons_eq v pvs v.ticker rfl]
    cases hl : lastFor pvs v.ticker with
    | some w => exact setVals_setVals v w r
    | none => rfl
  · rw [if_neg h]
    exact (applyLast_cons_ne v pvs r h).symm

lemma hasTicker_iff (store : List Row) (t : String) :
    hasTicker store t = true ↔ t ∈ tickers store := by
  unfold hasTicker tickers
  rw [List.any_eq_true]
  constructor
  · rintro ⟨r, hr, hrt⟩
    exact (of_decide_eq_true hrt) ▸ List.mem_map_of_mem Row.ticker hr
  · intro ht
    rcases List.mem_map.mp ht with ⟨r, hr, hrt⟩
    exact ⟨r, hr, decide_eq_true hrt⟩

lemma tickers_map_preserve (store : List Row) (f : Row → Row)
    (h : ∀ r, (f r).ticker = r.ticker) : tickers (store.map f) = tickers store := by
  unfold tickers
  rw [List.map_map]
  exact list_map_congr store (fun r _ => h r)

lemma tickers_append (s1 s2 : List Row) :
    tickers (s1 ++ s2) = tickers s1 ++ tickers s2 := by
  simp [tickers]

lemma freshRows_cons (ts : List String) (v : Vals) (pvs : List Vals) :
    freshRows ts (v :: pvs) =
      if v.ticker ∈ ts then freshRows ts pvs
      else mkRow ((lastFor pvs v.ticker).getD v) :: freshRows (v.ticker :: ts) pvs := rfl

lemma freshRows_congr (pvs : List Vals) : ∀ (ts ts' : List String),
    (∀ x, x ∈ ts ↔ x ∈ ts') → freshRows ts pvs = freshRows ts' pvs := by
  induction pvs with
  | nil => intro ts ts' h; rfl
  | cons v pvs ih =>
    intro ts ts' h
    rw [freshRows_cons, freshRows_cons]
    by_cases hv : v.ticker ∈ ts
    · rw [if_pos hv, if_pos ((h v.ticker).mp hv), ih ts ts' h]
    · rw [if_neg hv, if_neg (fun hc => hv ((h v.ticker).mpr hc)),
        ih (v.ticker :: ts) (v.ticker :: ts') (by intro x; simp [h x])]

lemma freshRows_nil_of_subset (pvs : List Vals) : ∀ (ts : List String),
    (∀ v ∈ pvs, v.ticker ∈ ts) → freshRows ts pvs = [] := by
  induction pvs with
  | nil => intro ts _; rfl
  | cons v pvs ih =>
    intro ts h
    rw [freshRows_cons, if_pos (h v (List.mem_cons_self v pvs))]
    exact ih ts (fun x hx => h x (List.mem_cons_of_mem v hx))

lemma freshRows_ticker_avoid (pvs : List Vals) : ∀ (ts : List String) (r : Row),
    r ∈ freshRows ts pvs → r.ticker ∉ ts := by
  induction pvs with
  | nil => intro ts r h; simp [freshRows] at h
  | cons v pvs ih =>
    intro ts r h
    rw [freshRows_cons] at h
    by_cases hv : v.ticker ∈ ts
    · rw [if_pos hv] at h
      exact ih ts r h
    · rw [if_neg hv] at h
      rcases List.mem_cons.mp h with h1 | h1
      · have ht : r.ticker = v.ticker := by
          rw [h1, mkRow_ticker, lastForD_ticker]
        rw [ht]
        exact hv
      · have h2 := ih (v.ticker :: ts) r h1
        exact fun hc => h2 (List.mem_cons_of_mem _ hc)

lemma freshRows_complete (pvs : List Vals) : ∀ (ts : List String) (v : Vals),
    v ∈ pvs → v.ticker ∈ ts ∨ v.ticker ∈ tickers (freshRows ts pvs) := by
  induction pvs with
  | nil => intro ts v h; cases h
  | cons u pvs ih =>
    intro ts v h
    rw [freshRows_cons]
    by_cases hu : u.ticker ∈ ts
    · rw [if_pos hu]
      rcases List.mem_cons.mp h with rfl | h1
      · exact Or.inl hu
      · exact ih ts v h1
    · rw [if_neg hu]
      have hhead : (mkRow ((lastFor pvs u.ticker).getD u)).ticker = u.ticker := by
        rw [mkRow_ticker, lastForD_ticker]
      rcases List.mem_cons.mp h with rfl | h1
      · right
        unfold tickers
        rw [List.map_cons, hhead]
        exact List.mem_cons_self _ _
      · rcases ih (u.ticker :: ts) v h1 with h2 | h2
        · rcases List.mem_cons.mp h2 with h3 | h3
          · right
            unfold tickers
            rw [List.map_cons, hhead, h3]
            exact List.mem_cons_self _ _
          · exact Or.inl h3
        · right
          unfold tickers
          rw [List.map_cons]
          exact List.mem_cons_of_mem _ h2

lemma freshRows_fixed (pvs : List Vals) : ∀ (ts : List String),
    (freshRows ts pvs).map (applyLast pvs) = freshRows ts pvs := by
  induction pvs with
  | nil => intro ts; rfl
  | cons v pvs ih =>
    intro ts
    rw [freshRows_cons]
    by_cases hv : v.ticker ∈ ts
    · rw [if_pos hv]
      rw [list_map_congr (freshRows ts pvs)
        (fun r hr => applyLast_cons_ne v pvs r
          (fun he => (freshRows_ticker_avoid pvs ts r hr) (he ▸ hv)))]
      exact ih ts
    · rw [if_neg hv]
      rw [List.map_cons]
      congr 1
      · have hw : (mkRow ((lastFor pvs v.ticker).getD v)).ticker = v.ticker := by
          rw [mkRow_ticker, lastForD_ticker]
        unfold applyLast
        rw [hw, lastFor_cons_eq v pvs v.ticker rfl]
        exact setVals_mkRow _ _ rfl
      · rw [list_map_congr (freshRows (v.ticker :: ts) pvs)
          (fun r hr => applyLast_cons_ne v pvs r
            (fun he => (freshRows_ticker_avoid pvs (v.ticker :: ts) r hr)
              (he ▸ List.mem_cons_self _ _)))]
        exact ih (v.ticker :: ts)

lemma freshRows_tickers_nodup (pvs : List Vals) : ∀ (ts : List String),
    (tickers (freshRows ts pvs)).Nodup := by
  induction pvs with
  | nil => intro ts; simp [freshRows, tickers]
  | cons v pvs ih =>
    intro ts
    rw [freshRows_cons]
    by_cases hv : v.ticker ∈ ts
    · rw [if_pos hv]
      exact ih ts
    · rw [if_neg hv]
      unfold tickers
      rw [List.map_cons]
      refine List.nodup_cons.mpr ⟨?_, ih (v.ticker :: ts)⟩
      rw [mkRow_ticker, lastForD_ticker]
      intro hc
      rcases List.mem_map.mp hc with ⟨r, hr, hrt⟩
      exact freshRows_ticker_avoid pvs (v.ticker :: ts) r hr
        (by rw [hrt]; exact List.mem_cons_self _ _)

/-- Normal form of the import fold: every stored row is overwritten with the
last values its ticker has in the file, and the missing tickers are appended in
first-occurrence order with their final values. -/
lemma applyAll_char (pvs : List Vals) : ∀ (store : List Row),
    applyAll store pvs = store.map (applyLast pvs) ++ freshRows (tickers store) pvs := by
  induction pvs with
  | nil =>
    intro store
    show store = store.map (applyLast []) ++ freshRows (tickers store) []
    rw [list_map_congr store (fun r _ => applyLast_nil r)]
    simp [freshRows]
  | cons v pvs ih =>
    intro store
    show applyAll (upsert store v) pvs = _
    rw [ih (upsert store v)]
    unfold upsert
    by_cases hv : hasTicker store v.ticker = true
    · rw [if_pos hv]
      rw [List.map_map]
      simp only [Function.comp_def]
      rw [list_map_congr store (fun r _ => applyLast_step v pvs r)]
      rw [tickers_map_preserve store _
        (fun r => by by_cases h : r.ticker = v.ticker
                     · rw [if_pos h]; rfl
                     · rw [if_neg h])]
      rw [freshRows_cons, if_pos ((hasTicker_iff store v.ticker).mp hv)]
    · rw [if_neg hv]
      have hnotin : v.ticker ∉ tickers store :=
        fun hc => hv ((hasTicker_iff store v.ticker).mpr hc)
      rw [List.map_append, tickers_append]
      have hhead : List.map (applyLast pvs) [mkRow v]
          = [mkRow ((lastFor pvs v.ticker).getD v)] := by
        simp only [List.map_cons, List.map_nil]
        congr 1
        unfold applyLast
        rw [mkRow_ticker]
        cases hl : lastFor pvs v.ticker with
        | some w => exact setVals_mkRow v w (lastFor_ticker v.ticker w pvs hl)
        | none => rfl
      rw [hhead]
      rw [list_map_congr store (fun r hr =>
        (applyLast_cons_ne v pvs r
          (fun he => hnotin (he ▸ List.mem_map_of_mem Row.ticker hr))).symm)]
      rw [show tickers [mkRow v] = [v.ticker] from rfl]
      rw [freshRows_congr pvs (tickers store ++ [v.ticker]) (v.ticker :: tickers store)
        (by intro x; simp [or_comm])]
      rw [freshRows_cons, if_neg hnotin]
      simp [tickers, List.append_assoc]

/-- The tickers after an import are the stored ones followed by the appended
fresh ones. -/
lemma applyAll_tickers (pvs : List Vals) (store : List Row) :
    tickers (applyAll store pvs)
      = tickers store ++ tickers (freshRows (tickers store) pvs) := by
  rw [applyAll_char, tickers_append, tickers_map_preserve _ _ (applyLast_ticker pvs)]

/-- Replaying the same parsed rows over the already-imported store changes
nothing. -/
lemma applyAll_idem (pvs : List Vals) (store : List Row) :
    applyAll (applyAll store pvs) pvs = applyAll store pvs := by
  rw [applyAll_char pvs store, applyAll_char pvs _]
  have hsub : ∀ v ∈ pvs, v.ticker ∈
      tickers (store.map (applyLast pvs) ++ freshRows (tickers store) pvs) := by
    intro v hv
    rw [tickers_append, tickers_map_preserve _ _ (applyLast_ticker pvs)]
    rcases freshRows_complete pvs (tickers store) v hv with h | h
    · exact List.mem_append_left _ h
    · exact List.mem_append_right _ h
  rw [freshRows_nil_of_subset pvs _ hsub, List.append_nil]
  rw [List.map_append, List.map_map]
  simp only [Function.comp_def]
  rw [list_map_congr store (fun r _ => applyLast_idem pvs r)]
  rw [freshRows_fixed pvs (tickers store)]

/-- The import fold equals the upsert fold over the parsed rows, and the count
is the number of parsed rows. -/
lemma process_fold_eq (rows : List CsvRow) : ∀ (store : List Row) (n : Nat),
    rows.foldl
      (fun acc row =>
        match processRow row with
        | none => acc
        | some v => (upsert acc.1 v, acc.2 + 1))
      (store, n)
    = (applyAll store (rows.filterMap processRow),
       n + (rows.filterMap processRow).length) := by
  induction rows with
  | nil => intro store n; simp [applyAll]
  | cons row rows ih =>
    intro store n
    rw [List.foldl_cons, List.filterMap_cons]
    cases hp : processRow row with
    | none =>
      simp only [hp]
      exact ih store n
    | some v =>
      simp only [hp]
      rw [ih (upsert store v) (n + 1)]
      rw [show applyAll store (v :: rows.filterMap processRow)
            = applyAll (upsert store v) (rows.filterMap processRow) from rfl]
      congr 1
      simp only [List.length_cons]
      omega

lemma process_fidelity_eq (rows : List CsvRow) (store : List Row) :
    process_fidelity_csv rows store
      = (applyAll store (rows.filterMap processRow),
         (rows.filterMap processRow).length) := by
  unfold process_fidelity_csv
  rw [process_fold_eq rows store 0, Nat.zero_add]

/-- Claim C7: importing the same file twice leaves exactly the store and count
the first import produced - the second pass only takes update paths, since
every parsed ticker is already present after the first pass - and when the
store starts with distinct tickers it keeps exactly one row per ticker. -/
theorem claim_C7_import_idempotent (rows : List CsvRow) (store : List Row) :
    (process_fidelity_csv rows (process_fidelity_csv rows store).1).1
      = (process_fidelity_csv rows store).1
    ∧ (process_fidelity_csv rows (process_fidelity_csv rows store).1).2
      = (process_fidelity_csv rows store).2
    ∧ (∀ v ∈ rows.filterMap processRow,
        hasTicker (process_fidelity_csv rows store).1 v.ticker = true)
    ∧ ((tickers store).Nodup → (tickers (process_fidelity_csv rows store).1).Nodup) := by
  simp only [process_fidelity_eq]
  refine ⟨applyAll_idem _ _, trivial, ?_, ?_⟩
  · intro v hv
    rw [hasTicker_iff, applyAll_tickers]
    rcases freshRows_complete (rows.filterMap processRow) (tickers store) v hv with h | h
    · exact List.mem_append_left _ h
    · exact List.mem_append_right _ h
  · intro hnd
    rw [applyAll_tickers]
    refine List.Nodup.append hnd
      (freshRows_tickers_nodup (rows.filterMap processRow) (tickers store)) ?_
    intro x hx hx'
    rcases List.mem_map.mp hx' with ⟨r, hr, hrt⟩
    exact freshRows_ticker_avoid (rows.filterMap processRow) (tickers store) r hr
      (hrt ▸ hx)

/-- Witness for claim C7: replaying the concrete five-row file over the empty
store reproduces the store and count of the first import, and the resulting
tickers are distinct. -/
theorem claim_C7_witness :
    (process_fidelity_csv csvFive (process_fidelity_csv csvFive []).1).1
      = (process_fidelity_csv csvFive []).1
    ∧ (process_fidelity_csv csvFive (process_fidelity_csv csvFive []).1).2
      = (process_fidelity_csv csvFive []).2
    ∧ (tickers (process_fidelity_csv csvFive []).1).Nodup :=
  ⟨(claim_C7_import_idempotent csvFive []).1,
   (claim_C7_import_idempotent csvFive []).2.1,
   (claim_C7_import_idempotent csvFive []).2.2.2 (by decide)⟩
